import Mathlib

/-!
Shallow embedding of the proxy-subscription normalization pipeline of
`scripts/generate_subscriptions.py` (repository lzhp529), together with
theorems settling the frozen claims about it.

Python strings are modelled as lists of characters (`Str`); Python values
(the payloads of node mappings) are modelled by the inductive type `Val`;
Python dicts are modelled as insertion-ordered association lists, as in
CPython.  `hash(...)` is process-salted in CPython, so it enters the model
as an explicit function parameter `pyHash`; no claim depends on its values.
-/

set_option maxRecDepth 100000

namespace GenSub

/-- Python strings, modelled as lists of characters. -/
abbrev Str := List Char

/-- Shorthand turning a Lean string literal into the `Str` model type. -/
def S (s : String) : Str := s.data

/-- Python runtime values as they occur in this script: `None`, booleans,
integers, non-integer numbers (value `m * 10 ^ e`; binary floating-point
rounding is not modelled, and no claim depends on non-integer numbers),
strings, lists and dicts. -/
inductive Val : Type where
  | vnone : Val
  | vbool : Bool → Val
  | vint : Int → Val
  | vfloat : Int → Int → Val
  | vstr : Str → Val
  | vlist : List Val → Val
  | vdict : List (Str × Val) → Val

instance : Inhabited Val := ⟨Val.vnone⟩

/-- A Python dict: an insertion-ordered association list. -/
abbrev Dict := List (Str × Val)

mutual

/-- Boolean equality on `Val` (structural, like `==` on these Python values). -/
def beqVal : Val → Val → Bool
  | .vnone, .vnone => true
  | .vbool a, .vbool b => a == b
  | .vint a, .vint b => a == b
  | .vfloat a b, .vfloat c d => a == c && b == d
  | .vstr a, .vstr b => a == b
  | .vlist xs, .vlist ys => beqValList xs ys
  | .vdict es, .vdict fs => beqValEntries es fs
  | _, _ => false

/-- Boolean equality on lists of `Val`. -/
def beqValList : List Val → List Val → Bool
  | [], [] => true
  | x :: xs, y :: ys => beqVal x y && beqValList xs ys
  | _, _ => false

/-- Boolean equality on dict entry lists. -/
def beqValEntries : List (Str × Val) → List (Str × Val) → Bool
  | [], [] => true
  | (k, v) :: xs, (k', v') :: ys => k == k' && beqVal v v' && beqValEntries xs ys
  | _, _ => false

end

mutual

/-- Soundness of `beqVal` with respect to propositional equality. -/
def beqVal_iff : (a b : Val) → (beqVal a b = true ↔ a = b)
  | .vnone, .vnone => by simp [beqVal]
  | .vbool _, .vbool _ => by simp [beqVal]
  | .vint _, .vint _ => by simp [beqVal]
  | .vfloat _ _, .vfloat _ _ => by simp [beqVal]
  | .vstr _, .vstr _ => by simp [beqVal]
  | .vlist xs, .vlist ys => by
      have h := beqValList_iff xs ys
      simp [beqVal, h]
  | .vdict es, .vdict fs => by
      have h := beqValEntries_iff es fs
      simp [beqVal, h]
  | .vnone, .vbool _ => by simp [beqVal]
  | .vnone, .vint _ => by simp [beqVal]
  | .vnone, .vfloat _ _ => by simp [beqVal]
  | .vnone, .vstr _ => by simp [beqVal]
  | .vnone, .vlist _ => by simp [beqVal]
  | .vnone, .vdict _ => by simp [beqVal]
  | .vbool _, .vnone => by simp [beqVal]
  | .vbool _, .vint _ => by simp [beqVal]
  | .vbool _, .vfloat _ _ => by simp [beqVal]
  | .vbool _, .vstr _ => by simp [beqVal]
  | .vbool _, .vlist _ => by simp [beqVal]
  | .vbool _, .vdict _ => by simp [beqVal]
  | .vint _, .vnone => by simp [beqVal]
  | .vint _, .vbool _ => by simp [beqVal]
  | .vint _, .vfloat _ _ => by simp [beqVal]
  | .vint _, .vstr _ => by simp [beqVal]
  | .vint _, .vlist _ => by simp [beqVal]
  | .vint _, .vdict _ => by simp [beqVal]
  | .vfloat _ _, .vnone => by simp [beqVal]
  | .vfloat _ _, .vbool _ => by simp [beqVal]
  | .vfloat _ _, .vint _ => by simp [beqVal]
  | .vfloat _ _, .vstr _ => by simp [beqVal]
  | .vfloat _ _, .vlist _ => by simp [beqVal]
  | .vfloat _ _, .vdict _ => by simp [beqVal]
  | .vstr _, .vnone => by simp [beqVal]
  | .vstr _, .vbool _ => by simp [beqVal]
  | .vstr _, .vint _ => by simp [beqVal]
  | .vstr _, .vfloat _ _ => by simp [beqVal]
  | .vstr _, .vlist _ => by simp [beqVal]
  | .vstr _, .vdict _ => by simp [beqVal]
  | .vlist _, .vnone => by simp [beqVal]
  | .vlist _, .vbool _ => by simp [beqVal]
  | .vlist _, .vint _ => by simp [beqVal]
  | .vlist _, .vfloat _ _ => by simp [beqVal]
  | .vlist _, .vstr _ => by simp [beqVal]
  | .vlist _, .vdict _ => by simp [beqVal]
  | .vdict _, .vnone => by simp [beqVal]
  | .vdict _, .vbool _ => by simp [beqVal]
  | .vdict _, .vint _ => by simp [beqVal]
  | .vdict _, .vfloat _ _ => by simp [beqVal]
  | .vdict _, .vstr _ => by simp [beqVal]
  | .vdict _, .vlist _ => by simp [beqVal]

/-- Soundness of `beqValList`. -/
def beqValList_iff : (a b : List Val) → (beqValList a b = true ↔ a = b)
  | [], [] => by simp [beqValList]
  | x :: xs, y :: ys => by
      have h1 := beqVal_iff x y
      have h2 := beqValList_iff xs ys
      simp [beqValList, h1, h2]
  | [], _ :: _ => by simp [beqValList]
  | _ :: _, [] => by simp [beqValList]

/-- Soundness of `beqValEntries`. -/
def beqValEntries_iff : (a b : List (Str × Val)) → (beqValEntries a b = true ↔ a = b)
  | [], [] => by simp [beqValEntries]
  | (k, v) :: xs, (k', v') :: ys => by
      have h1 := beqVal_iff v v'
      have h2 := beqValEntries_iff xs ys
      simp [beqValEntries, h1, h2, and_assoc]
  | [], _ :: _ => by simp [beqValEntries]
  | _ :: _, [] => by simp [beqValEntries]

end

instance : DecidableEq Val := fun a b =>
  decidable_of_iff (beqVal a b = true) (beqVal_iff a b)

/-- Python truthiness (`bool(v)`) for the values of `Val`. -/
def pyTruthy : Val → Bool
  | .vnone => false
  | .vbool b => b
  | .vint n => decide (n ≠ 0)
  | .vfloat m _ => decide (m ≠ 0)
  | .vstr s => decide (s ≠ [])
  | .vlist xs => decide (xs ≠ [])
  | .vdict es => decide (es ≠ [])

/-- Python `a or b` on values: the first operand if truthy, else the second. -/
def pyOr (a b : Val) : Val := if pyTruthy a then a else b

/-- Membership test for a key in a dict (`k in d`). -/
def containsKey (k : Str) : Dict → Bool
  | [] => false
  | (k', _) :: rest => k' = k || containsKey k rest

/-- Lookup of a key in a dict (`d[k]` / `d.get(k)` when the key is present). -/
def dGet (k : Str) : Dict → Option Val
  | [] => none
  | (k', v) :: rest => if k' = k then some v else dGet k rest

/-- Lookup with a default (`d.get(k, dflt)`). -/
def dGetD (d : Dict) (k : Str) (dflt : Val) : Val :=
  (dGet k d).getD dflt

/-- Characters Python's `str.strip()` removes (ASCII whitespace; further
Unicode whitespace is not modelled and no claim depends on it). -/
def isPyWs (c : Char) : Bool :=
  c == ' ' || c == '\t' || c == '\n' || c == '\r' || c == '\x0b' || c == '\x0c'

/-- Python `s.strip()`. -/
def pyStrip (s : Str) : Str :=
  ((s.dropWhile isPyWs).reverse.dropWhile isPyWs).reverse

/-- Python `s.lower()` (ASCII case mapping; the script only compares against
ASCII keywords). -/
def pyLower (s : Str) : Str := s.map Char.toLower

/-- Python `s.split(sep)` for a one-character separator: keeps empty chunks,
always returns at least one chunk. -/
def splitChar (c : Char) : Str → List Str
  | [] => [[]]
  | x :: xs =>
    let r := splitChar c xs
    if x = c then [] :: r
    else
      match r with
      | h :: t => (x :: h) :: t
      | [] => [[x]]

/-- Python `s.split(sep, 1)` when `sep` occurs: the parts before and after the
first occurrence of `sep`.  When `sep` does not occur the whole string is
returned as the first part (all call sites guard with a containment test). -/
def splitFirst (c : Char) : Str → Str × Str
  | [] => ([], [])
  | x :: xs =>
    if x = c then ([], xs)
    else
      let r := splitFirst c xs
      (x :: r.1, r.2)

/-- Decimal digits of a natural number. -/
def natDigits (n : Nat) : Str := Nat.toDigits 10 n

/-- Python `str(n)` for an integer. -/
def intStr (n : Int) : Str :=
  if n < 0 then '-' :: natDigits (-n).toNat else natDigits n.toNat

/-- Numeric value of a nonempty string of decimal digits. -/
def digitsVal (ds : Str) : Nat :=
  ds.foldl (fun acc c => acc * 10 + (c.toNat - '0'.toNat)) 0

/-- Whether a string is nonempty and all decimal digits. -/
def allDigits (ds : Str) : Bool := decide (ds ≠ []) && ds.all (·.isDigit)

/-- Python `int(s)` on a string: optional surrounding whitespace, optional
sign, decimal digits; raises `ValueError` (modelled as `Except.error`)
otherwise.  Underscore separators and non-ASCII digits are not modelled; no
claim depends on them. -/
def pyInt (s : Str) : Except Unit Int :=
  match pyStrip s with
  | '-' :: ds => if allDigits ds then .ok (-(digitsVal ds : Int)) else .error ()
  | '+' :: ds => if allDigits ds then .ok (digitsVal ds) else .error ()
  | ds => if allDigits ds then .ok (digitsVal ds) else .error ()

/-- Join rendered pieces with `", "`, as Python does inside container reprs. -/
def joinCommaSep : List Str → Str
  | [] => []
  | [s] => s
  | s :: rest => s ++ S ", " ++ joinCommaSep rest

mutual

/-- Python rendering of a value: `str(v)` when the flag is false, `repr(v)`
(as used inside container renderings, where strings get quoted) when it is
true.  For non-integer numbers and for the quote/escape selection this is a
faithful-shape approximation (no claim depends on those renderings). -/
def pyRender : Bool → Val → Str
  | _, .vnone => S "None"
  | _, .vbool true => S "True"
  | _, .vbool false => S "False"
  | _, .vint n => intStr n
  | _, .vfloat m e =>
    if 0 ≤ e then intStr (m * (10 : Int) ^ e.toNat) ++ S ".0"
    else intStr m ++ S "e-" ++ natDigits (-e).toNat
  | reprMode, .vstr s => if reprMode then '\x27' :: s ++ ['\x27'] else s
  | _, .vlist xs => '[' :: joinCommaSep (pyRenderList xs) ++ [']']
  | _, .vdict es => '\x7b' :: joinCommaSep (pyRenderEntries es) ++ ['\x7d']

/-- The element `repr`s of a list value. -/
def pyRenderList : List Val → List Str
  | [] => []
  | x :: xs => pyRender true x :: pyRenderList xs

/-- The `key: value` `repr`s of a dict value (dict keys in this script are
strings, rendered quoted). -/
def pyRenderEntries : List (Str × Val) → List Str
  | [] => []
  | (k, v) :: es =>
    (('\x27' :: k ++ ['\x27']) ++ S ": " ++ pyRender true v) :: pyRenderEntries es

end

/-- Python `str(v)`. -/
def pyStrVal (v : Val) : Str := pyRender false v

mutual

/-- The script's `clean_config`: on a dict, drop entries whose value is
`None`, the empty string, or an empty collection, cleaning nested dicts
(dropping them when they clean to empty) and cleaning list items (dropping
`None` items and empty cleaned lists); any non-dict input is returned
unchanged. -/
def clean_config : Val → Val
  | .vdict es => .vdict (cleanEntries es)
  | v => v

/-- Entry-wise part of `clean_config`. -/
def cleanEntries : List (Str × Val) → List (Str × Val)
  | [] => []
  | (k, v) :: rest =>
    match v with
    | .vnone => cleanEntries rest
    | .vstr s => if s = [] then cleanEntries rest else (k, .vstr s) :: cleanEntries rest
    | .vdict es =>
      match cleanEntries es with
      | [] => cleanEntries rest
      | e :: es' => (k, .vdict (e :: es')) :: cleanEntries rest
    | .vlist xs =>
      match cleanList xs with
      | [] => cleanEntries rest
      | x :: xs' => (k, .vlist (x :: xs')) :: cleanEntries rest
    | w => (k, w) :: cleanEntries rest

/-- List-item part of `clean_config`: `clean_config` of each item, dropping
items that are `None` (which is exactly when `clean_config(item)` is `None`). -/
def cleanList : List Val → List Val
  | [] => []
  | x :: xs =>
    match x with
    | .vnone => cleanList xs
    | x => clean_config x :: cleanList xs

end

/-- The script's type-inference table for a node missing `type`, evaluated in
source order. -/
def inferTypeStr (p : Dict) : Str :=
  if containsKey (S "cipher") p && containsKey (S "password") p then S "ss"
  else if containsKey (S "uuid") p then
    (if containsKey (S "alterId") p then S "vmess" else S "vless")
  else if containsKey (S "password") p && containsKey (S "sni") p then S "trojan"
  else if containsKey (S "password") p && containsKey (S "alpn") p then S "hysteria2"
  else S "http"

/-- The placeholder name `节点-<hash(str(proxy)) % 10000>` synthesized for a
node missing `name`. -/
def defaultNodeName (pyHash : Str → Nat) (p : Dict) : Str :=
  S "节点-" ++ natDigits (pyHash (pyStrVal (.vdict p)) % 10000)

/-- One guarded assignment `if k not in proxy: proxy[k] = v` (the value is
evaluated lazily in Python but is pure, so passing it evaluated is
equivalent). -/
def addIfMissing (d : Dict) (k : Str) (v : Val) : Dict :=
  if containsKey k d then d else d ++ [(k, v)]

/-- Entry-list part of `ensure_proxy_required_fields`: append each of
`name`, `type`, `server`, `port`, `udp` when missing, in source order. -/
def ensureFields (pyHash : Str → Nat) (p : Dict) : Dict :=
  let p1 := addIfMissing p (S "name") (.vstr (defaultNodeName pyHash p))
  let p2 := addIfMissing p1 (S "type") (.vstr (inferTypeStr p1))
  let p3 := addIfMissing p2 (S "server") (.vstr (S "unknown-server"))
  let p4 := addIfMissing p3 (S "port") (.vint 443)
  addIfMissing p4 (S "udp") (.vbool true)

/-- The script's `ensure_proxy_required_fields`: non-dict inputs are returned
unchanged; on a dict the mandatory keys are added when missing. -/
def ensure_proxy_required_fields (pyHash : Str → Nat) : Val → Val
  | .vdict es => .vdict (ensureFields pyHash es)
  | v => v

/-- Value of a standard-alphabet base64 character. -/
def b64Val (c : Char) : Option Nat :=
  if 'A' ≤ c ∧ c ≤ 'Z' then some (c.toNat - 'A'.toNat)
  else if 'a' ≤ c ∧ c ≤ 'z' then some (c.toNat - 'a'.toNat + 26)
  else if '0' ≤ c ∧ c ≤ '9' then some (c.toNat - '0'.toNat + 52)
  else if c = '+' then some 62
  else if c = '/' then some 63
  else none

/-- Value of a base64 character after `urlsafe_b64decode`'s `-_` → `+/`
translation (standard characters remain valid). -/
def b64ValUrl (c : Char) : Option Nat :=
  if c = '-' then some 62 else if c = '_' then some 63 else b64Val c

/-- Reassemble bytes from a run of 6-bit values (2 leftover values give one
byte, 3 give two, a single leftover is dropped by the caller's checks). -/
def b64Bytes : List Nat → List Nat
  | a :: b :: c :: d :: rest =>
    (a * 4 + b / 16) :: ((b % 16) * 16 + c / 4) :: ((c % 4) * 64 + d) :: b64Bytes rest
  | [a, b] => [a * 4 + b / 16]
  | [a, b, c] => [a * 4 + b / 16, (b % 16) * 16 + c / 4]
  | _ => []

/-- CPython `base64.b64decode` with `validate=False`: characters outside the
alphabet are discarded, the kept length must be a multiple of 4, decoding
stops at the first padding `=`, and a single leftover value is an error. -/
def b64decodeWith (table : Char → Option Nat) (s : Str) : Option (List Nat) :=
  let kept := s.filter (fun c => (table c).isSome || c == '=')
  if kept.length % 4 ≠ 0 then none
  else
    let payload := kept.takeWhile (fun c => c ≠ '=')
    if payload.length % 4 = 1 then none
    else some (b64Bytes (payload.filterMap table))

/-- Second byte constraint for a three-byte UTF-8 lead (rejecting overlong
forms and surrogates, as CPython's strict decoder does). -/
def utf8Cont3 (b c : Nat) : Bool :=
  if b = 224 then 160 ≤ c && c ≤ 191
  else if b = 237 then 128 ≤ c && c ≤ 159
  else 128 ≤ c && c ≤ 191

/-- Second byte constraint for a four-byte UTF-8 lead. -/
def utf8Cont4 (b c : Nat) : Bool :=
  if b = 240 then 144 ≤ c && c ≤ 191
  else if b = 244 then 128 ≤ c && c ≤ 143
  else 128 ≤ c && c ≤ 191

/-- A UTF-8 continuation byte. -/
def utf8ContB (c : Nat) : Bool := 128 ≤ c && c ≤ 191

/-- Fueled worker for UTF-8 decoding; `repl` selects `errors='replace'`
(emit U+FFFD) versus `errors='ignore'` (drop).  On malformed input CPython's
error handler may consume several bytes per error where this model consumes
the lead byte only; no claim depends on malformed non-ASCII input.  Every
recursive call shortens the byte list, so fuel `length + 1` always
suffices. -/
def utf8GoF (repl : Bool) : Nat → List Nat → List Char
  | 0, _ => []
  | _, [] => []
  | f + 1, b :: rest =>
    if b < 128 then Char.ofNat b :: utf8GoF repl f rest
    else if 194 ≤ b && b ≤ 223 then
      match rest with
      | c :: rest2 =>
        if utf8ContB c then Char.ofNat ((b - 192) * 64 + (c - 128)) :: utf8GoF repl f rest2
        else (if repl then [Char.ofNat 65533] else []) ++ utf8GoF repl f (c :: rest2)
      | [] => if repl then [Char.ofNat 65533] else []
    else if 224 ≤ b && b ≤ 239 then
      match rest with
      | c :: d :: rest2 =>
        if utf8Cont3 b c && utf8ContB d then
          Char.ofNat ((b - 224) * 4096 + (c - 128) * 64 + (d - 128)) :: utf8GoF repl f rest2
        else (if repl then [Char.ofNat 65533] else []) ++ utf8GoF repl f (c :: d :: rest2)
      | [c] => (if repl then [Char.ofNat 65533] else []) ++ utf8GoF repl f [c]
      | [] => if repl then [Char.ofNat 65533] else []
    else if 240 ≤ b && b ≤ 244 then
      match rest with
      | c :: d :: e :: rest2 =>
        if utf8Cont4 b c && utf8ContB d && utf8ContB e then
          Char.ofNat ((b - 240) * 262144 + (c - 128) * 4096 + (d - 128) * 64 + (e - 128))
            :: utf8GoF repl f rest2
        else (if repl then [Char.ofNat 65533] else []) ++ utf8GoF repl f (c :: d :: e :: rest2)
      | [c, d] => (if repl then [Char.ofNat 65533] else []) ++ utf8GoF repl f [c, d]
      | [c] => (if repl then [Char.ofNat 65533] else []) ++ utf8GoF repl f [c]
      | [] => if repl then [Char.ofNat 65533] else []
    else (if repl then [Char.ofNat 65533] else []) ++ utf8GoF repl f rest

/-- UTF-8 decoding of a byte list. -/
def utf8Decode (repl : Bool) (bs : List Nat) : List Char := utf8GoF repl (bs.length + 1) bs

/-- The script's `safe_decode_base64`: falsy input gives `None`; otherwise
strip, remove newlines, pad with `=` to a multiple of 4, try the standard
alphabet then the URL-safe alphabet, decoding the bytes as UTF-8 with
`errors='ignore'`; both failing gives `None`. -/
def safe_decode_base64 (data : Str) : Option Str :=
  if data = [] then none
  else
    let d0 := (pyStrip data).filter (fun c => c != '\n' && c != '\r')
    let d := d0 ++ List.replicate ((4 - d0.length % 4) % 4) '='
    match b64decodeWith b64Val d with
    | some bytes => some (utf8Decode false bytes)
    | none =>
      match b64decodeWith b64ValUrl d with
      | some bytes => some (utf8Decode false bytes)
      | none => none

/-- Value of a hexadecimal digit character. -/
def hexDigitVal (c : Char) : Option Nat :=
  if '0' ≤ c ∧ c ≤ '9' then some (c.toNat - '0'.toNat)
  else if 'a' ≤ c ∧ c ≤ 'f' then some (c.toNat - 'a'.toNat + 10)
  else if 'A' ≤ c ∧ c ≤ 'F' then some (c.toNat - 'A'.toNat + 10)
  else none

/-- Worker for `unquote`: `acc` holds pending percent-decoded bytes
(reversed); runs of `%XX` are decoded together as UTF-8 with
`errors='replace'`, anything else passes through. -/
def unquoteGo (acc : List Nat) : Str → Str
  | [] => utf8Decode true acc.reverse
  | '%' :: a :: b :: rest =>
    match hexDigitVal a, hexDigitVal b with
    | some ha, some hb => unquoteGo ((ha * 16 + hb) :: acc) rest
    | _, _ => utf8Decode true acc.reverse ++ '%' :: unquoteGo [] (a :: b :: rest)
  | c :: rest => utf8Decode true acc.reverse ++ c :: unquoteGo [] rest

/-- Python `urllib.parse.unquote` (UTF-8, `errors='replace'`). -/
def unquote (s : Str) : Str := unquoteGo [] s

/-- Python `urllib.parse.unquote_plus`: `+` becomes a space, then `unquote`. -/
def unquotePlus (s : Str) : Str :=
  unquote (s.map (fun c => if c = '+' then ' ' else c))

/-- Append a value under a key in a query-parameter dict, preserving
first-occurrence key order as CPython's dict does. -/
def qsAddTo (d : List (Str × List Str)) (k : Str) (v : Str) : List (Str × List Str) :=
  match d with
  | [] => [(k, [v])]
  | (k0, vs) :: rest => if k0 = k then (k0, vs ++ [v]) :: rest else (k0, vs) :: qsAddTo rest k v

/-- Python `urllib.parse.parse_qs` with default arguments: split on `&`,
split each field on the first `=`, drop fields with no `=` or an empty raw
value, percent-plus-decode names and values, group values by name. -/
def parse_qs (s : Str) : List (Str × List Str) :=
  (splitChar '&' s).foldl
    (fun d pair =>
      if pair = [] then d
      else if pair.contains '=' then
        let nv := splitFirst '=' pair
        if nv.2 ≠ [] then qsAddTo d (unquotePlus nv.1) (unquotePlus nv.2) else d
      else d)
    []

/-- Lookup in a parsed query dict. -/
def qsGet (k : Str) : List (Str × List Str) → Option (List Str)
  | [] => none
  | (k', vs) :: rest => if k' = k then some vs else qsGet k rest

/-- Python `query_params.get(k, [dflt])[0]` (a stored value list is never
empty; the empty-list arm is unreachable and returns the default). -/
def qsFirst (q : List (Str × List Str)) (k : Str) (dflt : Str) : Str :=
  match qsGet k q with
  | some (v :: _) => v
  | some [] => dflt
  | none => dflt

/-- Python `int(v)` applied to an arbitrary value: integers pass through,
booleans become 0/1, strings are parsed, non-integer numbers truncate toward
zero, anything else is a `TypeError`. -/
def pyIntOfVal : Val → Except Unit Int
  | .vint n => .ok n
  | .vbool b => .ok (if b then 1 else 0)
  | .vstr s => pyInt s
  | .vfloat m e =>
    .ok (if 0 ≤ e then m * (10 : Int) ^ e.toNat else Int.tdiv m ((10 : Int) ^ (-e).toNat))
  | _ => .error ()

/-- Python dict assignment `d[k] = v`: replace in place when the key exists,
else append. -/
def dictSet (d : Dict) (k : Str) (v : Val) : Dict :=
  if containsKey k d then d.map (fun kv => if kv.1 = k then (k, v) else kv) else d ++ [(k, v)]

/-- JSON whitespace. -/
def jsonWs (s : Str) : Str :=
  s.dropWhile (fun c => c == ' ' || c == '\t' || c == '\n' || c == '\r')

/-- Exponent part of a JSON number literal: optional sign and digits. -/
def jsonExpPart (re : Str) : Option (Bool × Str × Str) :=
  let q := (match re with
    | '+' :: rr => (false, rr)
    | '-' :: rr => (true, rr)
    | _ => (false, re))
  let eds := q.2.takeWhile Char.isDigit
  if eds = [] then none else some (q.1, eds, q.2.dropWhile Char.isDigit)

/-- JSON number literal: integers decode to `vint`, anything with a fraction
or exponent to `vfloat` (`NaN`/`Infinity`, which CPython accepts, are not
modelled; no claim depends on them). -/
def jsonNumber (s : Str) : Option (Val × Str) :=
  let p := (match s with | '-' :: r => (true, r) | _ => (false, s))
  let neg := p.1
  let s1 := p.2
  match s1 with
  | [] => none
  | c :: _ =>
    if ¬ c.isDigit then none
    else
      let ds := s1.takeWhile Char.isDigit
      let r2 := s1.dropWhile Char.isDigit
      if c = '0' ∧ ds.length > 1 then none
      else
        let fr : Option (Str × Str) :=
          match r2 with
          | '.' :: rf =>
            let fds := rf.takeWhile Char.isDigit
            if fds = [] then none else some (fds, rf.dropWhile Char.isDigit)
          | _ => some ([], r2)
        match fr with
        | none => none
        | some (fds, r3) =>
          let ex : Option (Bool × Str × Str) :=
            match r3 with
            | 'e' :: re => jsonExpPart re
            | 'E' :: re => jsonExpPart re
            | _ => some (false, [], r3)
          match ex with
          | none => none
          | some (eneg, eds, r4) =>
            let sign : Int := if neg then -1 else 1
            if fds = [] ∧ eds = [] then some (.vint (sign * (digitsVal ds : Int)), r4)
            else
              let mant : Int := sign * (digitsVal (ds ++ fds) : Int)
              let ev : Int :=
                (if eneg then -(digitsVal eds : Int) else (digitsVal eds : Int)) - (fds.length : Int)
              some (.vfloat mant ev, r4)

/-- Fueled JSON string body parser, applied after the opening quote (each
step consumes input, so fuel `length + 1` suffices); strict mode (raw control
characters are rejected).  Valid surrogate pairs combine; lone surrogates
become U+FFFD (CPython keeps them as lone surrogates, which Lean's `Char`
cannot represent; no claim depends on them). -/
def jsonStringBody : Nat → Str → Str → Option (Str × Str)
  | 0, _, _ => none
  | _, [], _ => none
  | _ + 1, '"' :: r, acc => some (acc, r)
  | f + 1, '\\' :: e :: r, acc =>
    if e = '"' then jsonStringBody f r (acc ++ ['"'])
    else if e = '\\' then jsonStringBody f r (acc ++ ['\\'])
    else if e = '/' then jsonStringBody f r (acc ++ ['/'])
    else if e = 'b' then jsonStringBody f r (acc ++ ['\x08'])
    else if e = 'f' then jsonStringBody f r (acc ++ ['\x0c'])
    else if e = 'n' then jsonStringBody f r (acc ++ ['\n'])
    else if e = 'r' then jsonStringBody f r (acc ++ ['\r'])
    else if e = 't' then jsonStringBody f r (acc ++ ['\t'])
    else if e = 'u' then
      match r with
      | a :: b :: c :: d :: r2 =>
        match hexDigitVal a, hexDigitVal b, hexDigitVal c, hexDigitVal d with
        | some ha, some hb, some hc, some hd =>
          let cp := ((ha * 16 + hb) * 16 + hc) * 16 + hd
          if 55296 ≤ cp ∧ cp ≤ 56319 then
            match r2 with
            | '\\' :: 'u' :: a2 :: b2 :: c2 :: d2 :: r3 =>
              match hexDigitVal a2, hexDigitVal b2, hexDigitVal c2, hexDigitVal d2 with
              | some h1, some h2, some h3, some h4 =>
                let cp2 := ((h1 * 16 + h2) * 16 + h3) * 16 + h4
                if 56320 ≤ cp2 ∧ cp2 ≤ 57343 then
                  jsonStringBody f r3
                    (acc ++ [Char.ofNat (65536 + (cp - 55296) * 1024 + (cp2 - 56320))])
                else jsonStringBody f r2 (acc ++ [Char.ofNat 65533])
              | _, _, _, _ => jsonStringBody f r2 (acc ++ [Char.ofNat 65533])
            | _ => jsonStringBody f r2 (acc ++ [Char.ofNat 65533])
          else if 56320 ≤ cp ∧ cp ≤ 57343 then jsonStringBody f r2 (acc ++ [Char.ofNat 65533])
          else jsonStringBody f r2 (acc ++ [Char.ofNat cp])
        | _, _, _, _ => none
      | _ => none
    else none
  | f + 1, c :: r, acc => if c.toNat < 32 then none else jsonStringBody f r (acc ++ [c])

mutual

/-- Fueled JSON value parser (every recursive call consumes input, so fuel
`2 * length + 4` always suffices).  Returns the value and the unconsumed
suffix. -/
def jsonVal : Nat → Str → Option (Val × Str)
  | 0, _ => none
  | f + 1, s0 =>
    match jsonWs s0 with
    | [] => none
    | c :: rest =>
      if c = '\x7b' then
        match jsonWs rest with
        | '\x7d' :: r2 => some (.vdict [], r2)
        | r => jsonMembers f r []
      else if c = '[' then
        match jsonWs rest with
        | ']' :: r2 => some (.vlist [], r2)
        | r => jsonItems f r []
      else if c = '"' then
        match jsonStringBody (rest.length + 1) rest [] with
        | some (str, r2) => some (.vstr str, r2)
        | none => none
      else if c = 't' then
        (match rest with
         | 'r' :: 'u' :: 'e' :: r2 => some (.vbool true, r2)
         | _ => none)
      else if c = 'f' then
        (match rest with
         | 'a' :: 'l' :: 's' :: 'e' :: r2 => some (.vbool false, r2)
         | _ => none)
      else if c = 'n' then
        (match rest with
         | 'u' :: 'l' :: 'l' :: r2 => some (.vnone, r2)
         | _ => none)
      else jsonNumber (c :: rest)

/-- Fueled JSON object members parser (after a `{` not followed by `}`). -/
def jsonMembers : Nat → Str → Dict → Option (Val × Str)
  | 0, _, _ => none
  | f + 1, s, acc =>
    match jsonWs s with
    | '"' :: r =>
      match jsonStringBody (r.length + 1) r [] with
      | some (k, r2) =>
        (match jsonWs r2 with
         | ':' :: r3 =>
           (match jsonVal f r3 with
            | some (v, r4) =>
              (match jsonWs r4 with
               | ',' :: r5 => jsonMembers f r5 (dictSet acc k v)
               | '\x7d' :: r5 => some (.vdict (dictSet acc k v), r5)
               | _ => none)
            | none => none)
         | _ => none)
      | none => none
    | _ => none

/-- Fueled JSON array items parser (after a `[` not followed by `]`). -/
def jsonItems : Nat → Str → List Val → Option (Val × Str)
  | 0, _, _ => none
  | f + 1, s, acc =>
    match jsonVal f s with
    | some (v, r) =>
      (match jsonWs r with
       | ',' :: r2 => jsonItems f r2 (acc ++ [v])
       | ']' :: r2 => some (.vlist (acc ++ [v]), r2)
       | _ => none)
    | none => none

end

/-- Python `json.loads`: parse one JSON document, requiring only whitespace
after it. -/
def jsonLoads (s : Str) : Option Val :=
  match jsonVal (2 * s.length + 4) s with
  | some (v, rest) => if jsonWs rest = [] then some v else none
  | none => none

/-- The name-synthesis precedence shared by the ss/trojan/vless/hysteria2
decoders: label plus fragment, label plus scheme default, fragment alone,
scheme default alone. -/
def synthName (remark : Option Str) (name fallback : Str) : Str :=
  match remark with
  | some r =>
    if r ≠ [] then
      if name ≠ [] then r ++ S "-" ++ name else r ++ S "-" ++ fallback
    else if name ≠ [] then name else fallback
  | none => if name ≠ [] then name else fallback

/-- The `host:port?query` tail handling shared verbatim by the trojan, vless
and hysteria2 decoders: strip and parse an optional query, then split
`host:port` (port defaults to 443, `int(port_str)` may raise). -/
def hostPortQuery (server_part : Str) : Except Unit (Str × Int × List (Str × List Str)) :=
  let sq := if server_part.contains '?' then
      (let q := splitFirst '?' server_part; (q.1, parse_qs q.2))
    else (server_part, [])
  let spp := sq.1
  if spp.contains ':' then
    match pyInt (splitFirst ':' spp).2 with
    | .error e => .error e
    | .ok port => .ok ((splitFirst ':' spp).1, port, sq.2)
  else .ok (spp, 443, sq.2)

/-- Shared wrapper for every decoder: the body's normal result is passed
through `clean_config` then `ensure_proxy_required_fields`; a raised
exception (the `except` clause) yields `None`. -/
def wrapParser (pyHash : Str → Nat) (body : Except Unit (Option Dict)) : Option Val :=
  match body with
  | .ok (some cfg) => some (ensure_proxy_required_fields pyHash (clean_config (.vdict cfg)))
  | .ok none => none
  | .error _ => none

/-- The `#fragment` split shared verbatim by the ss, trojan, vless and
hysteria2 decoders: when `#` occurs, the display name is the
percent-decoded fragment. -/
def fragSplit (u : Str) : Str × Str :=
  if u.contains '#' then (let q := splitFirst '#' u; (q.1, unquote q.2)) else (u, [])

/-- The alternate-encoding branch of `parse_ss`: re-decode the pre-`@`
segment separately. -/
def ssAltAuth (url : Str) : Option (Str × Str) :=
  if url.contains '@' then
    match safe_decode_base64 (splitFirst '@' url).1 with
    | some da => if da.contains ':' then some (splitFirst ':' da) else none
    | none => none
  else none

/-- Body of the script's `parse_ss` (inside its `try`). -/
def parse_ss_core (remark : Option Str) (url0 : Str) : Except Unit (Option Dict) :=
  let url1 := url0.drop 5
  let fp := fragSplit url1
  let url := fp.1
  let name0 := fp.2
  let decoded := safe_decode_base64 (if url.contains '@' then (splitFirst '@' url).1 else url)
  let mp : Option (Str × Str) :=
    match decoded with
    | some d => if d.contains ':' then some (splitFirst ':' d) else ssAltAuth url
    | none => ssAltAuth url
  match mp with
  | none => .ok none
  | some (method, password) =>
    let server_part0 := if url.contains '@' then (splitFirst '@' url).2 else url
    let server_part := if server_part0.contains '?' then (splitFirst '?' server_part0).1
                       else server_part0
    if server_part.contains ':' then
      match pyInt (splitFirst ':' server_part).2 with
      | .error e => .error e
      | .ok port =>
        let server := (splitFirst ':' server_part).1
        let nm := synthName remark name0 (S "SS-" ++ server ++ S ":" ++ intStr port)
        .ok (some [(S "name", .vstr nm), (S "type", .vstr (S "ss")), (S "server", .vstr server),
          (S "port", .vint port), (S "cipher", .vstr method), (S "password", .vstr password),
          (S "udp", .vbool true)])
    else .ok none

/-- The script's `parse_ss`. -/
def parse_ss (pyHash : Str → Nat) (url : Str) (remark : Option Str) : Option Val :=
  wrapParser pyHash (parse_ss_core remark url)

/-- Body of the script's `parse_hysteria2` (inside its `try`).  NOTE: the
source strips `url[11:]`, one character short of the 12-character prefix
`hysteria2://`, so a leading `/` remains on the userinfo segment. -/
def parse_hysteria2_core (remark : Option Str) (url0 : Str) : Except Unit (Option Dict) :=
  let url1 := url0.drop 11
  let fp := fragSplit url1
  let url := fp.1
  let name0 := fp.2
  if url.contains '@' then
    let password := (splitFirst '@' url).1
    match hostPortQuery (splitFirst '@' url).2 with
    | .error e => .error e
    | .ok (server, port, query_params) =>
      let nm := synthName remark name0 (S "Hysteria2-" ++ server ++ S ":" ++ intStr port)
      let config : Dict := [(S "name", .vstr nm), (S "type", .vstr (S "hysteria2")),
        (S "server", .vstr server), (S "port", .vint port),
        (S "password", .vstr password), (S "udp", .vbool true)]
      let config := match qsGet (S "sni") query_params with
        | some (v :: _) => config ++ [(S "sni", .vstr v)]
        | _ => config
      let insecure := qsFirst query_params (S "insecure") (S "0") = S "1"
                    ∨ qsFirst query_params (S "allowInsecure") (S "0") = S "1"
      let config := if insecure then config ++ [(S "skip-cert-verify", .vbool true)] else config
      let config := match qsGet (S "alpn") query_params with
        | some (v :: _) => config ++ [(S "alpn", .vlist ((splitChar ',' v).map Val.vstr))]
        | _ => config
      .ok (some config)
  else .ok none

/-- The script's `parse_hysteria2`. -/
def parse_hysteria2 (pyHash : Str → Nat) (url : Str) (remark : Option Str) : Option Val :=
  wrapParser pyHash (parse_hysteria2_core remark url)

/-- Body of the script's `parse_trojan` (inside its `try`). -/
def parse_trojan_core (remark : Option Str) (url0 : Str) : Except Unit (Option Dict) :=
  let url1 := url0.drop 9
  let fp := fragSplit url1
  let url := fp.1
  let name0 := fp.2
  if url.contains '@' then
    let password := (splitFirst '@' url).1
    match hostPortQuery (splitFirst '@' url).2 with
    | .error e => .error e
    | .ok (server, port, query_params) =>
      let nm := synthName remark name0 (S "Trojan-" ++ server ++ S ":" ++ intStr port)
      let sni0 := qsFirst query_params (S "sni") []
      .ok (some [(S "name", .vstr nm), (S "type", .vstr (S "trojan")),
        (S "server", .vstr server), (S "port", .vint port), (S "password", .vstr password),
        (S "sni", .vstr (if sni0 ≠ [] then sni0 else server)),
        (S "skip-cert-verify",
          .vbool (decide (qsFirst query_params (S "allowInsecure") (S "0") = S "1"))),
        (S "udp", .vbool true)])
  else .ok none

/-- The script's `parse_trojan`. -/
def parse_trojan (pyHash : Str → Nat) (url : Str) (remark : Option Str) : Option Val :=
  wrapParser pyHash (parse_trojan_core remark url)

/-- Body of the script's `parse_vless` (inside its `try`). -/
def parse_vless_core (remark : Option Str) (url0 : Str) : Except Unit (Option Dict) :=
  let url1 := url0.drop 8
  let fp := fragSplit url1
  let url := fp.1
  let name0 := fp.2
  if url.contains '@' then
    let uuid := (splitFirst '@' url).1
    match hostPortQuery (splitFirst '@' url).2 with
    | .error e => .error e
    | .ok (server, port, query_params) =>
      let nm := synthName remark name0 (S "VLESS-" ++ server ++ S ":" ++ intStr port)
      let config : Dict := [(S "name", .vstr nm), (S "type", .vstr (S "vless")),
        (S "server", .vstr server), (S "port", .vint port), (S "uuid", .vstr uuid),
        (S "udp", .vbool true)]
      let security := qsFirst query_params (S "security") []
      let config := if security = S "tls" ∨ security = S "xtls" then
          config ++ [(S "tls", .vbool true),
            (S "skip-cert-verify",
              .vbool (decide (qsFirst query_params (S "allowInsecure") (S "0") = S "1")))]
        else config
      let sni0 := qsFirst query_params (S "sni") []
      .ok (some (config ++ [(S "servername", .vstr (if sni0 ≠ [] then sni0 else server))]))
  else .ok none

/-- The script's `parse_vless`. -/
def parse_vless (pyHash : Str → Nat) (url : Str) (remark : Option Str) : Option Val :=
  wrapParser pyHash (parse_vless_core remark url)

/-- Body of the script's `parse_vmess` (inside its `try`): the remainder is a
base64 JSON object; a JSON error or a non-dict document raises. -/
def parse_vmess_core (remark : Option Str) (url0 : Str) : Except Unit (Option Dict) :=
  match safe_decode_base64 (url0.drop 8) with
  | none => .ok none
  | some d =>
    if d = [] then .ok none
    else
      match jsonLoads d with
      | none => .error ()
      | some (.vdict vc) =>
        let origName := dGetD vc (S "ps")
          (.vstr (S "VMess-" ++ pyStrVal (dGetD vc (S "add") (.vstr (S "unknown")))))
        let nameV : Val :=
          match remark with
          | some r => if r ≠ [] then .vstr (r ++ S "-" ++ pyStrVal origName) else origName
          | none => origName
        match pyIntOfVal (dGetD vc (S "port") (.vint 443)) with
        | .error e => .error e
        | .ok port =>
          match pyIntOfVal (dGetD vc (S "aid") (.vint 0)) with
          | .error e => .error e
          | .ok aid =>
            let config : Dict := [(S "name", nameV), (S "type", .vstr (S "vmess")),
              (S "server", dGetD vc (S "add") (.vstr [])), (S "port", .vint port),
              (S "uuid", dGetD vc (S "id") (.vstr [])), (S "alterId", .vint aid),
              (S "cipher", dGetD vc (S "scy") (.vstr (S "auto"))), (S "udp", .vbool true)]
            let config := if dGetD vc (S "tls") .vnone = .vstr (S "tls") then
                config ++ [(S "tls", .vbool true),
                  (S "skip-cert-verify", .vbool ([Val.vbool true, .vstr (S "true"),
                    .vstr (S "1")].contains (dGetD vc (S "allowInsecure") .vnone)))]
              else config
            let sni := pyOr (dGetD vc (S "sni") .vnone) (dGetD vc (S "host") .vnone)
            let config := if pyTruthy sni then config ++ [(S "servername", sni)] else config
            let network := dGetD vc (S "net") (.vstr (S "tcp"))
            let config :=
              if network ≠ .vstr (S "tcp") then
                let config := config ++ [(S "network", network)]
                if network = .vstr (S "ws") then
                  let wsOpts : Dict :=
                    (if pyTruthy (dGetD vc (S "path") .vnone) then
                       [(S "path", dGetD vc (S "path") .vnone)] else [])
                    ++ (if pyTruthy (dGetD vc (S "host") .vnone) then
                          [(S "headers", .vdict [(S "Host", dGetD vc (S "host") .vnone)])] else [])
                  if wsOpts ≠ [] then config ++ [(S "ws-opts", .vdict wsOpts)] else config
                else config
              else config
            .ok (some config)
      | some _ => .error ()

/-- The script's `parse_vmess`. -/
def parse_vmess (pyHash : Str → Nat) (url : Str) (remark : Option Str) : Option Val :=
  wrapParser pyHash (parse_vmess_core remark url)

/-- The script's `parse_proxy_url`: falsy or non-string input gives `None`;
otherwise strip and dispatch on the scheme prefix, in source order. -/
def parse_proxy_url (pyHash : Str → Nat) (url : Val) (remark : Option Str) : Option Val :=
  if ¬ pyTruthy url then none
  else
    match url with
    | .vstr s0 =>
      let s := pyStrip s0
      if (S "hysteria2://").isPrefixOf s then parse_hysteria2 pyHash s remark
      else if (S "ss://").isPrefixOf s then parse_ss pyHash s remark
      else if (S "vmess://").isPrefixOf s then parse_vmess pyHash s remark
      else if (S "trojan://").isPrefixOf s then parse_trojan pyHash s remark
      else if (S "vless://").isPrefixOf s then parse_vless pyHash s remark
      else none
    | _ => none

/-- Substring occurrence (Python's `in` on strings). -/
def strInfixOf (needle : Str) : Str → Bool
  | [] => needle.isPrefixOf []
  | c :: rest => needle.isPrefixOf (c :: rest) || strInfixOf needle rest

/-- The literal markers the classifier looks for. -/
def clashKeywords : List Str :=
  [S "proxies:", S "proxy-groups:", S "rules:", S "mixed-port:", S "port:"]

/-- Whether one marker occurs in a line, after the classifier's
lowercase-then-strip preprocessing. -/
def keywordInLine (line : Str) : Bool :=
  clashKeywords.any (fun k => strInfixOf k (pyStrip (pyLower line)))

/-- First block of `is_clash_yaml_content`: a marker in one of the first 5
lines of the stripped text (blank interior lines count toward the 5). -/
def markerRuleCheck (content : Str) : Bool :=
  ((splitChar '\n' (pyStrip content)).take 5).any keywordInLine

/-- The regex `^\s*-\s*\x7b.*?\x7d\s*$`: dash, inline map, nothing but
whitespace around them. -/
def yamlNodeLine (l : Str) : Bool :=
  match l.dropWhile isPyWs with
  | '-' :: r =>
    (match r.dropWhile isPyWs with
     | '\x7b' :: r2 =>
       (match r2.reverse.dropWhile isPyWs with
        | '\x7d' :: _ => true
        | _ => false)
     | _ => false)
  | _ => false

/-- Second block of `is_clash_yaml_content`: at least 2 compact inline node
lines among the first 20 lines. -/
def compactNodeRule (content : Str) : Bool :=
  2 ≤ ((splitChar '\n' (pyStrip content)).take 20).countP (fun l => yamlNodeLine l)

/-- Scan of the third block of `is_clash_yaml_content`, counting in half
units so the source's `+= 0.5` stays exact: a dash line counts 2, an
indented `key: value` line counts 1, and the threshold `dash_count >= 2`
becomes `4 ≤ count`. -/
def multilineCount : List Str → Bool → Nat → Nat
  | [], _, acc => acc
  | line :: rest, inProxies, acc =>
    let ls := pyStrip line
    if ls = S "proxies:" then multilineCount rest true acc
    else if inProxies then
      if (S "- ").isPrefixOf ls then multilineCount rest inProxies (acc + 2)
      else if (S "-").isPrefixOf ls then multilineCount rest inProxies (acc + 2)
      else if ls ≠ [] ∧ ¬ (S "#").isPrefixOf ls then
        (if (S "  ").isPrefixOf line ∧ line.contains ':' then
           multilineCount rest inProxies (acc + 1)
         else multilineCount rest inProxies acc)
      else multilineCount rest inProxies acc
    else multilineCount rest inProxies acc

/-- Third block of `is_clash_yaml_content`: a `proxies:` key somewhere in the
text followed by at least 2 list-item indicators. -/
def multilineProxiesRule (content : Str) : Bool :=
  if strInfixOf (S "proxies:") content then
    4 ≤ multilineCount (splitChar '\n' (pyStrip content)) false 0
  else false

/-- The script's `is_clash_yaml_content`. -/
def is_clash_yaml_content (content : Str) : Bool :=
  if content = [] then false
  else markerRuleCheck content || compactNodeRule content || multilineProxiesRule content

/-- The name default `节点<i+1>` used when a node among the first 200 lacks
`name` at group-building time. -/
def idxNodeName (i : Nat) : Val := .vstr (S "节点" ++ natDigits (i + 1))

/-- Worker for `allNodeNames`, carrying the enumeration index. -/
def allNodeNamesAux : Nat → List Dict → List Val
  | _, [] => []
  | i, d :: rest => dGetD d (S "name") (idxNodeName i) :: allNodeNamesAux (i + 1) rest

/-- `build_proxy_groups`'s `all_node_names`: the `name` of each of the first
200 nodes, with the positional default. -/
def allNodeNames (nodes : List Dict) : List Val := allNodeNamesAux 0 (nodes.take 200)

/-- The health-check URL shared by the generated groups. -/
def gstaticUrl : Str := S "http://www.gstatic.com/generate_204"

/-- The names of nodes of one label group: `node.get('name')` filtered by
truthiness. -/
def labelNodeNames : List Dict → List Val
  | [] => []
  | d :: rest =>
    let v := dGetD d (S "name") .vnone
    if pyTruthy v then v :: labelNodeNames rest else labelNodeNames rest

/-- The per-label url-test groups appended by `build_proxy_groups`, one per
truthy label with a nonempty node list and at least one truthy name,
capped at 50 member names. -/
def remarkGroups : List (Str × List Dict) → List Val
  | [] => []
  | (remark, nodes) :: rest =>
    if remark ≠ [] ∧ nodes ≠ [] then
      match labelNodeNames nodes with
      | [] => remarkGroups rest
      | n :: ns =>
        .vdict [(S "name", .vstr remark), (S "type", .vstr (S "url-test")),
          (S "url", .vstr gstaticUrl), (S "interval", .vint 300),
          (S "tolerance", .vint 50), (S "proxies", .vlist ((n :: ns).take 50))]
          :: remarkGroups rest
    else remarkGroups rest

/-- The script's `build_proxy_groups`: the three base groups (the selector
group's proxies are the three fixed targets; the load-balance and url-test
groups reference `all_node_names`) plus one url-test group per label. -/
def build_proxy_groups (all_nodes : List Dict) (remark_nodes_map : List (Str × List Dict)) :
    List Val :=
  let names := allNodeNames all_nodes
  [.vdict [(S "name", .vstr (S "节点选择")), (S "type", .vstr (S "select")),
     (S "proxies", .vlist [.vstr (S "负载均衡"), .vstr (S "自动选择"), .vstr (S "DIRECT")])],
   .vdict [(S "name", .vstr (S "负载均衡")), (S "type", .vstr (S "load-balance")),
     (S "url", .vstr gstaticUrl), (S "interval", .vint 300),
     (S "strategy", .vstr (S "consistent-hashing")), (S "proxies", .vlist names)],
   .vdict [(S "name", .vstr (S "自动选择")), (S "type", .vstr (S "url-test")),
     (S "url", .vstr gstaticUrl), (S "interval", .vint 300),
     (S "tolerance", .vint 50), (S "proxies", .vlist names)]]
  ++ remarkGroups remark_nodes_map

/-- The dedup identity key of `main`:
`f"{server}:{port}:{type}:{name}"` over `proxy.get(..., '')`. -/
def nodeKey (p : Dict) : Str :=
  pyStrVal (dGetD p (S "server") (.vstr [])) ++ S ":"
    ++ pyStrVal (dGetD p (S "port") (.vstr [])) ++ S ":"
    ++ pyStrVal (dGetD p (S "type") (.vstr [])) ++ S ":"
    ++ pyStrVal (dGetD p (S "name") (.vstr []))

/-- The dedup loop of `main`, threading the `seen` key set (modelled as a
list used only through membership). -/
def dedupAux (seen : List Str) : List Dict → List Dict
  | [] => []
  | p :: rest =>
    if p = [] then dedupAux seen rest
    else if seen.contains (nodeKey p) then dedupAux seen rest
    else p :: dedupAux (nodeKey p :: seen) rest

/-- The Deduplicator: the dedup loop started with an empty `seen` set. -/
def dedupProxies (l : List Dict) : List Dict := dedupAux [] l

/-- Field access on a dict-valued `Val`. -/
def vGetDict (v : Val) (k : Str) : Option Val :=
  match v with
  | .vdict es => dGet k es
  | _ => none

/-- The mandatory key set of a canonical node. -/
def requiredKeys : List Str := [S "name", S "type", S "server", S "port", S "udp"]

/-- The (server, port, type, name) field quadruple of a node, with the
dedup loop's defaults, used to state the claimed dedup identity. -/
def fieldQuad (p : Dict) : Val × Val × Val × Val :=
  (dGetD p (S "server") (.vstr []), dGetD p (S "port") (.vstr []),
   dGetD p (S "type") (.vstr []), dGetD p (S "name") (.vstr []))

/-- Specification-side deduplication, following the amended claim's words:
a node is kept iff it is a non-empty mapping and no earlier non-empty node
in the list has the same dedup key. -/
def dedupSpecAux (earlier : List Dict) : List Dict → List Dict
  | [] => []
  | p :: rest =>
    if p ≠ [] ∧ ∀ q ∈ earlier, q = [] ∨ nodeKey q ≠ nodeKey p then
      p :: dedupSpecAux (earlier ++ [p]) rest
    else dedupSpecAux (earlier ++ [p]) rest

/-- Specification-side deduplication of a whole list. -/
def dedupSpec (l : List Dict) : List Dict := dedupSpecAux [] l

/-- The first `n` non-blank lines of a text, used to state the classifier
claim's wording. -/
def firstNonBlankLines (content : Str) (n : Nat) : List Str :=
  ((splitChar '\n' content).filter (fun l => decide (pyStrip l ≠ []))).take n

/-- A value that is `None`, the empty string, or an empty collection. -/
def isEmptyVal : Val → Bool
  | .vnone => true
  | .vstr [] => true
  | .vlist [] => true
  | .vdict [] => true
  | _ => false

mutual

/-- Claim-side predicate: no value at any nesting level (descending through
both dict entries and list items) is `None`, the empty string, or an empty
collection. -/
def noEmptyDeep : Val → Bool
  | .vdict es => noEmptyDeepEntries es
  | .vlist xs => noEmptyDeepList xs
  | _ => true

/-- `noEmptyDeep` over dict entries. -/
def noEmptyDeepEntries : List (Str × Val) → Bool
  | [] => true
  | (_, v) :: rest => !isEmptyVal v && noEmptyDeep v && noEmptyDeepEntries rest

/-- `noEmptyDeep` over list items. -/
def noEmptyDeepList : List Val → Bool
  | [] => true
  | v :: rest => !isEmptyVal v && noEmptyDeep v && noEmptyDeepList rest

end

mutual

/-- Amended invariant: no entry of this mapping, nor of any mapping reached
by following mapping values, is `None`, the empty string, or an empty
collection (list contents are not constrained). -/
def dictChainClean : Val → Bool
  | .vdict es => chainCleanEntries es
  | _ => true

/-- `dictChainClean` over dict entries. -/
def chainCleanEntries : List (Str × Val) → Bool
  | [] => true
  | (_, v) :: rest => !isEmptyVal v && dictChainClean v && chainCleanEntries rest

end

/-- Every entry list produced by `cleanEntries` satisfies the chain-clean
invariant: no kept entry holds `None`, an empty string or an empty
collection, and kept nested dicts are recursively clean. -/
def chainCleanEntries_cleanEntries : (es : List (Str × Val)) →
    chainCleanEntries (cleanEntries es) = true
  | [] => rfl
  | (_, .vnone) :: rest => by
      simpa [cleanEntries] using chainCleanEntries_cleanEntries rest
  | (k, .vbool b) :: rest => by
      have h := chainCleanEntries_cleanEntries rest
      simp [cleanEntries, chainCleanEntries, isEmptyVal, dictChainClean, h]
  | (k, .vint n) :: rest => by
      have h := chainCleanEntries_cleanEntries rest
      simp [cleanEntries, chainCleanEntries, isEmptyVal, dictChainClean, h]
  | (k, .vfloat m e) :: rest => by
      have h := chainCleanEntries_cleanEntries rest
      simp [cleanEntries, chainCleanEntries, isEmptyVal, dictChainClean, h]
  | (k, .vstr []) :: rest => by
      simpa [cleanEntries] using chainCleanEntries_cleanEntries rest
  | (k, .vstr (c :: t)) :: rest => by
      have h := chainCleanEntries_cleanEntries rest
      simp [cleanEntries, chainCleanEntries, isEmptyVal, dictChainClean, h]
  | (k, .vdict es) :: rest => by
      have h1 := chainCleanEntries_cleanEntries es
      have h2 := chainCleanEntries_cleanEntries rest
      cases hc : cleanEntries es with
      | nil => simp [cleanEntries, hc, h2]
      | cons e es' =>
          rw [hc] at h1
          obtain ⟨x, v⟩ := e
          simp only [chainCleanEntries, Bool.and_eq_true, Bool.not_eq_true'] at h1
          simp [cleanEntries, hc, chainCleanEntries, isEmptyVal, dictChainClean, h1, h2]
          exact h1.1.1
  | (k, .vlist xs) :: rest => by
      have h2 := chainCleanEntries_cleanEntries rest
      cases hc : cleanList xs with
      | nil => simp [cleanEntries, hc, h2]
      | cons x xs' =>
          simp [cleanEntries, hc, chainCleanEntries, isEmptyVal, dictChainClean, h2]

theorem containsKey_append (k : Str) (d e : Dict) :
    containsKey k (d ++ e) = (containsKey k d || containsKey k e) := by
  induction d with
  | nil => simp [containsKey]
  | cons kv rest ih =>
    obtain ⟨k', v⟩ := kv
    simp [containsKey, ih, Bool.or_assoc]

theorem dGet_append_of_containsKey {k : Str} {d : Dict} (e : Dict)
    (h : containsKey k d = true) : dGet k (d ++ e) = dGet k d := by
  induction d with
  | nil => simp [containsKey] at h
  | cons kv rest ih =>
    obtain ⟨k', v⟩ := kv
    by_cases hk : k' = k
    · simp [dGet, hk]
    · simp only [containsKey, Bool.or_eq_true, decide_eq_true_eq] at h
      rcases h with h | h
      · exact absurd h hk
      · simp [dGet, hk, ih h]

theorem containsKey_of_dGet {k : Str} {d : Dict} {v : Val} (h : dGet k d = some v) :
    containsKey k d = true := by
  induction d with
  | nil => simp [dGet] at h
  | cons kv rest ih =>
    obtain ⟨k', w⟩ := kv
    by_cases hk : k' = k
    · simp [containsKey, hk]
    · simp only [dGet, hk, if_false] at h
      simp [containsKey, hk, ih h]

theorem dGet_addIfMissing {k k0 : Str} {d : Dict} {v : Val} (h : containsKey k d = true) :
    dGet k (addIfMissing d k0 v) = dGet k d := by
  unfold addIfMissing
  split
  · rfl
  · exact dGet_append_of_containsKey _ h

theorem containsKey_addIfMissing {k k0 : Str} {d : Dict} {v : Val}
    (h : containsKey k d = true) : containsKey k (addIfMissing d k0 v) = true := by
  unfold addIfMissing
  split
  · exact h
  · simp [containsKey_append, h]

theorem containsKey_addIfMissing_self (k : Str) (d : Dict) (v : Val) :
    containsKey k (addIfMissing d k v) = true := by
  unfold addIfMissing
  split
  · assumption
  · simp [containsKey_append, containsKey]

theorem containsKey_addIfMissing_elim {k k0 : Str} {d : Dict} {v : Val}
    (h : containsKey k (addIfMissing d k0 v) = true) : containsKey k d = true ∨ k = k0 := by
  unfold addIfMissing at h
  split at h
  · exact .inl h
  · simp only [containsKey_append, containsKey, Bool.or_eq_true, decide_eq_true_eq,
      Bool.or_false] at h
    rcases h with h | h
    · exact .inl h
    · exact .inr h.symm

theorem dGet_ensureFields (pyHash : Str → Nat) (d : Dict) (k : Str)
    (h : containsKey k d = true) : dGet k (ensureFields pyHash d) = dGet k d := by
  simp only [ensureFields]
  rw [dGet_addIfMissing (containsKey_addIfMissing (containsKey_addIfMissing
        (containsKey_addIfMissing (containsKey_addIfMissing h)))),
      dGet_addIfMissing (containsKey_addIfMissing (containsKey_addIfMissing
        (containsKey_addIfMissing h))),
      dGet_addIfMissing (containsKey_addIfMissing (containsKey_addIfMissing h)),
      dGet_addIfMissing (containsKey_addIfMissing h),
      dGet_addIfMissing h]

theorem containsKey_ensureFields_elim (pyHash : Str → Nat) (d : Dict) (k : Str)
    (h : containsKey k (ensureFields pyHash d) = true) :
    containsKey k d = true ∨ k ∈ requiredKeys := by
  simp only [ensureFields] at h
  rcases containsKey_addIfMissing_elim h with h | h
  · rcases containsKey_addIfMissing_elim h with h | h
    · rcases containsKey_addIfMissing_elim h with h | h
      · rcases containsKey_addIfMissing_elim h with h | h
        · rcases containsKey_addIfMissing_elim h with h | h
          · exact .inl h
          · exact .inr (by simp [requiredKeys, h])
        · exact .inr (by simp [requiredKeys, h])
      · exact .inr (by simp [requiredKeys, h])
    · exact .inr (by simp [requiredKeys, h])
  · exact .inr (by simp [requiredKeys, h])

theorem containsKey_ensureFields_required (pyHash : Str → Nat) (d : Dict) :
    containsKey (S "name") (ensureFields pyHash d) = true
    ∧ containsKey (S "type") (ensureFields pyHash d) = true
    ∧ containsKey (S "server") (ensureFields pyHash d) = true
    ∧ containsKey (S "port") (ensureFields pyHash d) = true
    ∧ containsKey (S "udp") (ensureFields pyHash d) = true := by
  simp only [ensureFields]
  refine ⟨?_, ?_, ?_, ?_, ?_⟩
  · exact containsKey_addIfMissing (containsKey_addIfMissing (containsKey_addIfMissing
      (containsKey_addIfMissing (containsKey_addIfMissing_self _ _ _))))
  · exact containsKey_addIfMissing (containsKey_addIfMissing (containsKey_addIfMissing
      (containsKey_addIfMissing_self _ _ _)))
  · exact containsKey_addIfMissing (containsKey_addIfMissing
      (containsKey_addIfMissing_self _ _ _))
  · exact containsKey_addIfMissing (containsKey_addIfMissing_self _ _ _)
  · exact containsKey_addIfMissing_self _ _ _

/-- Claim C1: decoding `ss://YWVzLTI1Ni1nY206cGFzcw==@1.2.3.4:8388#MyNode`
with label `Home` yields exactly the canonical node with name `Home-MyNode`,
type `ss`, server `1.2.3.4`, port 8388, cipher `aes-256-gcm`, password
`pass`, and udp true (for every value of the process hash salt, which this
input never consults). -/
theorem c1_ss_scenario (pyHash : Str → Nat) :
    parse_ss pyHash (S "ss://YWVzLTI1Ni1nY206cGFzcw==@1.2.3.4:8388#MyNode") (some (S "Home"))
      = some (.vdict [(S "name", .vstr (S "Home-MyNode")), (S "type", .vstr (S "ss")),
          (S "server", .vstr (S "1.2.3.4")), (S "port", .vint 8388),
          (S "cipher", .vstr (S "aes-256-gcm")), (S "password", .vstr (S "pass")),
          (S "udp", .vbool true)]) := by
  rfl

/-- Claim C2 (code bug evidence): the hysteria2 decoder strips only 11 of the
12 characters of `hysteria2://`, so on `hysteria2://pass@1.2.3.4:443` the
resulting node's password is `/pass`, not the userinfo segment `pass`. -/
theorem c2_hysteria2_password_keeps_slash (pyHash : Str → Nat) :
    parse_hysteria2 pyHash (S "hysteria2://pass@1.2.3.4:443") none
      = some (.vdict [(S "name", .vstr (S "Hysteria2-1.2.3.4:443")),
          (S "type", .vstr (S "hysteria2")), (S "server", .vstr (S "1.2.3.4")),
          (S "port", .vint 443), (S "password", .vstr (S "/pass")),
          (S "udp", .vbool true)]) := by
  rfl

theorem dedupAux_idem (seen : List Str) (l : List Dict) :
    dedupAux seen (dedupAux seen l) = dedupAux seen l := by
  induction l generalizing seen with
  | nil => rfl
  | cons p rest ih =>
    by_cases hp : p = []
    · simp [dedupAux, hp, ih]
    · by_cases hs : nodeKey p ∈ seen
      · simp [dedupAux, hp, hs, ih]
      · simp [dedupAux, hp, hs, ih]

/-- Claim C9: the Deduplicator is idempotent — running the dedup loop on its
own output returns that output unchanged. -/
theorem c9_dedup_idempotent (l : List Dict) :
    dedupProxies (dedupProxies l) = dedupProxies l :=
  dedupAux_idem [] l

/-- Claim C4 counterexample: with `:` as the key separator, two nodes whose
(server, port, type, name) quadruples differ (`t` with name `a:n` versus
`t:a` with name `n`) produce the same dedup key, so the second is dropped
even though no earlier node has identical fields, contradicting the claimed
iff. -/
theorem c4_counterexample :
    dedupProxies
        [[(S "server", .vstr (S "s")), (S "port", .vint 80),
          (S "type", .vstr (S "t")), (S "name", .vstr (S "a:n"))],
         [(S "server", .vstr (S "s")), (S "port", .vint 80),
          (S "type", .vstr (S "t:a")), (S "name", .vstr (S "n"))]]
      = [[(S "server", .vstr (S "s")), (S "port", .vint 80),
          (S "type", .vstr (S "t")), (S "name", .vstr (S "a:n"))]]
    ∧ fieldQuad [(S "server", .vstr (S "s")), (S "port", .vint 80),
          (S "type", .vstr (S "t")), (S "name", .vstr (S "a:n"))]
      ≠ fieldQuad [(S "server", .vstr (S "s")), (S "port", .vint 80),
          (S "type", .vstr (S "t:a")), (S "name", .vstr (S "n"))] := by
  exact ⟨rfl, by decide⟩

theorem dedupAux_eq_specAux (l : List Dict) (seen : List Str) (earlier : List Dict)
    (hinv : ∀ s, s ∈ seen ↔ ∃ q ∈ earlier, q ≠ [] ∧ nodeKey q = s) :
    dedupAux seen l = dedupSpecAux earlier l := by
  induction l generalizing seen earlier with
  | nil => rfl
  | cons p rest ih =>
    by_cases hp : p = []
    · have hinv' : ∀ s, s ∈ seen ↔ ∃ q ∈ earlier ++ [p], q ≠ [] ∧ nodeKey q = s := by
        intro s
        rw [hinv s]
        constructor
        · rintro ⟨q, hq, hne, hk⟩
          exact ⟨q, by simp [hq], hne, hk⟩
        · rintro ⟨q, hq, hne, hk⟩
          rcases List.mem_append.1 hq with hq | hq
          · exact ⟨q, hq, hne, hk⟩
          · rw [List.mem_singleton.1 hq, hp] at hne
            exact absurd rfl hne
      simp [dedupAux, dedupSpecAux, hp, ih _ _ hinv']
    · by_cases hs : nodeKey p ∈ seen
      · have hcond : ¬(p ≠ [] ∧ ∀ q ∈ earlier, q = [] ∨ nodeKey q ≠ nodeKey p) := by
          rcases (hinv (nodeKey p)).1 hs with ⟨q, hq, hne, hk⟩
          rintro ⟨-, hall⟩
          rcases hall q hq with h | h
          · exact hne h
          · exact h hk
        have hinv' : ∀ s, s ∈ seen ↔ ∃ q ∈ earlier ++ [p], q ≠ [] ∧ nodeKey q = s := by
          intro s
          rw [hinv s]
          constructor
          · rintro ⟨q, hq, hne, hk⟩
            exact ⟨q, by simp [hq], hne, hk⟩
          · rintro ⟨q, hq, hne, hk⟩
            rcases List.mem_append.1 hq with hq | hq
            · exact ⟨q, hq, hne, hk⟩
            · rw [List.mem_singleton.1 hq] at hk
              rcases (hinv (nodeKey p)).1 hs with ⟨q', hq', hne', hk'⟩
              exact ⟨q', hq', hne', by rw [hk', hk]⟩
        simp [dedupAux, dedupSpecAux, hp, hs, ih _ _ hinv']
        rw [if_neg (fun hA => hcond ⟨hp, hA⟩)]
      · have hcond : p ≠ [] ∧ ∀ q ∈ earlier, q = [] ∨ nodeKey q ≠ nodeKey p := by
          refine ⟨hp, fun q hq => ?_⟩
          by_cases hqe : q = []
          · exact .inl hqe
          · refine .inr fun hk => ?_
            exact hs ((hinv (nodeKey p)).2 ⟨q, hq, hqe, hk⟩)
        have hinv' : ∀ s, s ∈ (nodeKey p :: seen) ↔
            ∃ q ∈ earlier ++ [p], q ≠ [] ∧ nodeKey q = s := by
          intro s
          rw [List.mem_cons, hinv s]
          constructor
          · rintro (rfl | ⟨q, hq, hne, hk⟩)
            · exact ⟨p, by simp, hp, rfl⟩
            · exact ⟨q, by simp [hq], hne, hk⟩
          · rintro ⟨q, hq, hne, hk⟩
            rcases List.mem_append.1 hq with hq | hq
            · exact .inr ⟨q, hq, hne, hk⟩
            · rw [List.mem_singleton.1 hq] at hk
              exact .inl hk.symm
        simp [dedupAux, dedupSpecAux, hp, hs, ih _ _ hinv']
        rw [if_pos hcond.2]

/-- Claim C4 amended: the Deduplicator keeps a node iff it is a non-empty
mapping and no earlier non-empty node has an identical dedup key — the
colon-joined string of its server, port, type and name (missing fields
defaulting to the empty string) — first occurrence preserved in order.
Field quadruples that differ can still collide through the `:` separator. -/
theorem c4_amended (l : List Dict) : dedupProxies l = dedupSpec l :=
  dedupAux_eq_specAux l [] [] (by simp)

/-- Claim C5 counterexample: with one surviving node named `A`, the selector
base group `节点选择` references only the three fixed targets, not `A`,
contradicting the claim that each of the three base groups lists all
surviving node names. -/
theorem c5_counterexample :
    vGetDict ((build_proxy_groups
        [[(S "name", .vstr (S "A")), (S "type", .vstr (S "ss")), (S "server", .vstr (S "s")),
          (S "port", .vint 1), (S "udp", .vbool true)]] []).getD 0 .vnone) (S "proxies")
      = some (.vlist [.vstr (S "负载均衡"), .vstr (S "自动选择"), .vstr (S "DIRECT")])
    ∧ (Val.vstr (S "A"))
        ∉ [Val.vstr (S "负载均衡"), Val.vstr (S "自动选择"), Val.vstr (S "DIRECT")] :=
  ⟨rfl, by decide⟩

theorem allNodeNamesAux_length (i : Nat) (l : List Dict) :
    (allNodeNamesAux i l).length = l.length := by
  induction l generalizing i with
  | nil => rfl
  | cons d tl ih => simp [allNodeNamesAux, ih]

theorem allNodeNames_length_le (a : List Dict) : (allNodeNames a).length ≤ 200 := by
  rw [allNodeNames, allNodeNamesAux_length]
  simp [List.length_take_le 200 a]

theorem getD_mem_allNodeNamesAux (l : List Dict) (i0 i : Nat) (h : i < l.length) :
    dGetD (l.getD i []) (S "name") (idxNodeName (i0 + i)) ∈ allNodeNamesAux i0 l := by
  induction l generalizing i0 i with
  | nil => simp at h
  | cons d tl ih =>
    cases i with
    | zero => simp [allNodeNamesAux, List.getD]
    | succ j =>
      have hj : j < tl.length := by simpa using h
      have he : i0 + (j + 1) = (i0 + 1) + j := by omega
      rw [List.getD_cons_succ, he]
      exact List.mem_cons_of_mem _ (ih (i0 + 1) j hj)

theorem name_mem_allNodeNames (a : List Dict) (i : Nat) (h : i < min a.length 200) :
    dGetD (a.getD i []) (S "name") (idxNodeName i) ∈ allNodeNames a := by
  have h1 : i < (a.take 200).length := by
    simp only [List.length_take]
    omega
  have h2 := getD_mem_allNodeNamesAux (a.take 200) 0 i h1
  rw [Nat.zero_add] at h2
  have h3 : (a.take 200).getD i [] = a.getD i [] := by
    have hi : i < 200 := by omega
    simp [List.getD_eq_getElem?_getD, List.getElem?_take, hi]
  rw [allNodeNames]
  rw [h3] at h2
  exact h2

/-- Claim C5 amended: the 负载均衡 (load-balance) and 自动选择 (url-test) base
groups reference exactly `all_node_names` — the names of the surviving nodes
capped at 200, with positional defaults — while the 节点选择 selector group's
proxies are the three fixed targets 负载均衡 / 自动选择 / DIRECT only. -/
theorem c5_amended (a : List Dict) (r : List (Str × List Dict)) :
    vGetDict ((build_proxy_groups a r).getD 0 .vnone) (S "proxies")
      = some (.vlist [.vstr (S "负载均衡"), .vstr (S "自动选择"), .vstr (S "DIRECT")])
    ∧ vGetDict ((build_proxy_groups a r).getD 1 .vnone) (S "proxies")
      = some (.vlist (allNodeNames a))
    ∧ vGetDict ((build_proxy_groups a r).getD 2 .vnone) (S "proxies")
      = some (.vlist (allNodeNames a))
    ∧ (allNodeNames a).length ≤ 200
    ∧ (∀ i, i < min a.length 200 →
        dGetD (a.getD i []) (S "name") (idxNodeName i) ∈ allNodeNames a) :=
  ⟨rfl, rfl, rfl, allNodeNames_length_le a, fun i h => name_mem_allNodeNames a i h⟩

/-- Witness instantiating `c5_amended` at a concrete node list. -/
theorem c5_witness :
    (0 : Nat) < min ([[(S "name", Val.vstr (S "A"))]] : List Dict).length 200
    ∧ dGetD (([[(S "name", Val.vstr (S "A"))]] : List Dict).getD 0 []) (S "name") (idxNodeName 0)
        ∈ allNodeNames [[(S "name", Val.vstr (S "A"))]] :=
  ⟨by decide, (c5_amended [[(S "name", Val.vstr (S "A"))]] []).2.2.2.2 0 (by decide)⟩

/-- Claim C6 counterexample: in `a\n\n\n\nb\nport: 1` the marker `port:`
occurs in the third non-blank line, yet the classifier's literal-marker rule
(which scans the first 5 raw lines of the stripped text, interior blank
lines included) does not fire, and the whole classifier rejects the text. -/
theorem c6_counterexample :
    ((firstNonBlankLines (S "a\n\n\n\nb\nport: 1") 3).any keywordInLine) = true
    ∧ markerRuleCheck (S "a\n\n\n\nb\nport: 1") = false
    ∧ is_clash_yaml_content (S "a\n\n\n\nb\nport: 1") = false :=
  ⟨by decide, by decide, by decide⟩

/-- Claim C6 amended: the literal-marker rule fires iff one of the markers
occurs (case-insensitively, after stripping the line) within one of the
first five raw lines of the whitespace-stripped text — interior blank lines
count toward the five — and whenever it fires the text is classified as a
structured document. -/
theorem c6_amended (content : Str) :
    (markerRuleCheck content = true ↔
      ∃ l ∈ (splitChar '\n' (pyStrip content)).take 5, ∃ k ∈ clashKeywords,
        strInfixOf k (pyStrip (pyLower l)) = true)
    ∧ (markerRuleCheck content = true → is_clash_yaml_content content = true) := by
  constructor
  · simp [markerRuleCheck, keywordInLine, List.any_eq_true]
  · intro h
    have hne : content ≠ [] := by
      intro he
      rw [he] at h
      exact absurd h (by decide)
    simp [is_clash_yaml_content, hne, h]

/-- Witness instantiating `c6_amended` at a text whose first line holds a
marker. -/
theorem c6_witness :
    markerRuleCheck (S "port: 7890") = true
    ∧ is_clash_yaml_content (S "port: 7890") = true :=
  ⟨by decide, (c6_amended (S "port: 7890")).2 (by decide)⟩

/-- Claim C10: the Field Completer never modifies or removes a key that is
already present — every present key keeps its value — and every key of the
output was either present in the input or is one of the five mandatory keys
(`name`, `type`, `server`, `port`, `udp`) added when missing. -/
theorem c10_ensure_frame (pyHash : Str → Nat) (d : Dict) (k : Str)
    (hk : containsKey k d = true) :
    dGet k (ensureFields pyHash d) = dGet k d
    ∧ ∀ k', containsKey k' (ensureFields pyHash d) = true →
        containsKey k' d = true ∨ k' ∈ requiredKeys :=
  ⟨dGet_ensureFields pyHash d k hk, fun k' h => containsKey_ensureFields_elim pyHash d k' h⟩

/-- Witness instantiating `c10_ensure_frame` on a node that already carries a
`port` (kept unchanged) and receives `udp` (a mandatory key) from the
completer. -/
theorem c10_witness :
    containsKey (S "port") [(S "port", Val.vint 8080)] = true
    ∧ dGet (S "port") (ensureFields (fun _ => 0) [(S "port", Val.vint 8080)])
        = dGet (S "port") [(S "port", Val.vint 8080)]
    ∧ (containsKey (S "udp") [(S "port", Val.vint 8080)] = true ∨ (S "udp") ∈ requiredKeys) :=
  ⟨by decide,
   (c10_ensure_frame (fun _ => 0) [(S "port", Val.vint 8080)] (S "port") (by decide)).1,
   (c10_ensure_frame (fun _ => 0) [(S "port", Val.vint 8080)] (S "port") (by decide)).2
     (S "udp") (by decide)⟩

theorem isEmptyVal_vstr_ne {s : Str} (h : s ≠ []) : isEmptyVal (.vstr s) = false := by
  cases s with
  | nil => exact absurd rfl h
  | cons c t => rfl

theorem chainCleanEntries_append (a b : List (Str × Val)) :
    chainCleanEntries (a ++ b) = (chainCleanEntries a && chainCleanEntries b) := by
  induction a with
  | nil => simp [chainCleanEntries]
  | cons kv rest ih =>
    obtain ⟨k, v⟩ := kv
    simp [chainCleanEntries, ih, Bool.and_assoc]

theorem chainCleanEntries_addIfMissing {d : Dict} (hd : chainCleanEntries d = true)
    {k : Str} {v : Val} (hv : isEmptyVal v = false) (hc : dictChainClean v = true) :
    chainCleanEntries (addIfMissing d k v) = true := by
  unfold addIfMissing
  split
  · exact hd
  · simp [chainCleanEntries_append, hd, chainCleanEntries, hv, hc]

theorem inferTypeStr_ne_nil (p : Dict) : inferTypeStr p ≠ [] := by
  unfold inferTypeStr
  repeat' split
  all_goals decide

theorem defaultNodeName_ne_nil (pyHash : Str → Nat) (p : Dict) :
    defaultNodeName pyHash p ≠ [] := by
  intro h
  exact absurd (congrArg List.length h) (by simp [defaultNodeName, S])

theorem chainClean_ensureFields (pyHash : Str → Nat) (d : Dict)
    (hd : chainCleanEntries d = true) :
    chainCleanEntries (ensureFields pyHash d) = true := by
  simp only [ensureFields]
  apply chainCleanEntries_addIfMissing
  · apply chainCleanEntries_addIfMissing
    · apply chainCleanEntries_addIfMissing
      · apply chainCleanEntries_addIfMissing
        · apply chainCleanEntries_addIfMissing hd
          · exact isEmptyVal_vstr_ne (defaultNodeName_ne_nil pyHash d)
          · rfl
        · exact isEmptyVal_vstr_ne (inferTypeStr_ne_nil _)
        · rfl
      · exact isEmptyVal_vstr_ne (by decide)
      · rfl
    · rfl
    · rfl
  · rfl
  · rfl

/-- Claim C3 counterexample: a candidate node whose `alpn` holds a list
containing the empty string passes the Sanitizer and the Field Completer
unchanged, so the result still contains an empty string at a nested level,
refuting the claim that no value at any nesting level is null or empty. -/
theorem c3_counterexample :
    ensure_proxy_required_fields (fun _ => 0) (clean_config (.vdict
        [(S "name", .vstr (S "a")), (S "type", .vstr (S "ss")), (S "server", .vstr (S "s")),
         (S "port", .vint 1), (S "udp", .vbool true), (S "alpn", .vlist [.vstr []])]))
      = .vdict
        [(S "name", .vstr (S "a")), (S "type", .vstr (S "ss")), (S "server", .vstr (S "s")),
         (S "port", .vint 1), (S "udp", .vbool true), (S "alpn", .vlist [.vstr []])]
    ∧ noEmptyDeepEntries
        [(S "name", .vstr (S "a")), (S "type", .vstr (S "ss")), (S "server", .vstr (S "s")),
         (S "port", .vint 1), (S "udp", .vbool true), (S "alpn", .vlist [.vstr []])] = false :=
  ⟨rfl, by decide⟩

/-- Claim C3 amended: after the Sanitizer then the Field Completer (the
order the decoders apply them), the result carries the five mandatory keys
and no entry of the result mapping — nor of any mapping reached by following
mapping values — is null, the empty string, or an empty collection; empty
values may however survive inside list items. -/
theorem c3_amended (pyHash : Str → Nat) (es : Dict) :
    ∃ out : Dict,
      ensure_proxy_required_fields pyHash (clean_config (.vdict es)) = .vdict out
      ∧ containsKey (S "name") out = true ∧ containsKey (S "type") out = true
      ∧ containsKey (S "server") out = true ∧ containsKey (S "port") out = true
      ∧ containsKey (S "udp") out = true
      ∧ chainCleanEntries out = true := by
  obtain ⟨h1, h2, h3, h4, h5⟩ :=
    containsKey_ensureFields_required pyHash (cleanEntries es)
  exact ⟨ensureFields pyHash (cleanEntries es), rfl, h1, h2, h3, h4, h5,
    chainClean_ensureFields pyHash _ (chainCleanEntries_cleanEntries es)⟩

theorem containsChar_eq_false {c : Char} {l : Str} : l.contains c = false ↔ c ∉ l := by
  have h0 : l.contains c = l.elem c := rfl
  rw [h0, ← Bool.not_eq_true, List.elem_iff]

theorem notMem_splitFirst {x : Char} {l : Str} (c : Char) (h : x ∉ l) :
    x ∉ (splitFirst c l).1 ∧ x ∉ (splitFirst c l).2 := by
  induction l with
  | nil => simp [splitFirst]
  | cons a as ih =>
    have hx : x ≠ a := fun he => h (he ▸ List.mem_cons_self a as)
    have h' : x ∉ as := fun hm => h (List.mem_cons_of_mem a hm)
    by_cases hc : a = c
    · simp only [splitFirst, hc, if_pos]
      exact ⟨List.not_mem_nil x, h'⟩
    · obtain ⟨h1, h2⟩ := ih h'
      simp only [splitFirst, hc, if_neg, ite_false]
      refine ⟨fun hm => ?_, h2⟩
      rcases List.mem_cons.1 hm with hm | hm
      · exact hx hm
      · exact h1 hm

theorem notMem_fragSplit {x : Char} {u : Str} (h : x ∉ u) :
    x ∉ (fragSplit u).1 := by
  unfold fragSplit
  split
  · exact (notMem_splitFirst '#' h).1
  · exact h

theorem hostPortQuery_no_query {sp : Str} (h : sp.contains '?' = false)
    {server : Str} {port : Int} {qp : List (Str × List Str)}
    (he : hostPortQuery sp = .ok (server, port, qp)) : qp = [] := by
  unfold hostPortQuery at he
  rw [h] at he
  simp only [Bool.false_eq_true, if_false] at he
  split at he
  · split at he
    · cases he
    · injection he with he'
      exact (congrArg (fun t => t.2.2) he').symm
  · injection he with he'
    exact (congrArg (fun t => t.2.2) he').symm

theorem hysteria2_core_no_query {remark : Option Str} {url0 : Str}
    (hq : url0.contains '?' = false) {cfg : Dict}
    (h : parse_hysteria2_core remark url0 = .ok (some cfg)) :
    containsKey (S "tls") cfg = false ∧ containsKey (S "skip-cert-verify") cfg = false
    ∧ containsKey (S "sni") cfg = false ∧ containsKey (S "alpn") cfg = false := by
  have hq0 : '?' ∉ url0 := containsChar_eq_false.1 hq
  have hq1 : '?' ∉ (fragSplit (url0.drop 11)).1 :=
    notMem_fragSplit (fun hm => hq0 (List.mem_of_mem_drop hm))
  have hq2 : (splitFirst '@' (fragSplit (url0.drop 11)).1).2.contains '?' = false :=
    containsChar_eq_false.2 (notMem_splitFirst '@' hq1).2
  simp only [parse_hysteria2_core] at h
  split at h
  · cases hE : hostPortQuery (splitFirst '@' (fragSplit (url0.drop 11)).1).2 with
    | error e => rw [hE] at h; simp at h
    | ok t =>
      obtain ⟨server, port, qp⟩ := t
      have hqp : qp = [] := hostPortQuery_no_query hq2 hE
      subst hqp
      rw [hE] at h
      simp only [Except.ok.injEq, Option.some.injEq] at h
      subst h
      exact ⟨rfl, rfl, rfl, rfl⟩
  · simp at h

theorem trojan_core_no_query {remark : Option Str} {url0 : Str}
    (hq : url0.contains '?' = false) {cfg : Dict}
    (h : parse_trojan_core remark url0 = .ok (some cfg)) :
    dGet (S "skip-cert-verify") cfg = some (.vbool false) := by
  have hq0 : '?' ∉ url0 := containsChar_eq_false.1 hq
  have hq1 : '?' ∉ (fragSplit (url0.drop 9)).1 :=
    notMem_fragSplit (fun hm => hq0 (List.mem_of_mem_drop hm))
  have hq2 : (splitFirst '@' (fragSplit (url0.drop 9)).1).2.contains '?' = false :=
    containsChar_eq_false.2 (notMem_splitFirst '@' hq1).2
  simp only [parse_trojan_core] at h
  split at h
  · cases hE : hostPortQuery (splitFirst '@' (fragSplit (url0.drop 9)).1).2 with
    | error e => rw [hE] at h; simp at h
    | ok t =>
      obtain ⟨server, port, qp⟩ := t
      have hqp : qp = [] := hostPortQuery_no_query hq2 hE
      subst hqp
      rw [hE] at h
      simp only [Except.ok.injEq, Option.some.injEq] at h
      subst h
      rfl
  · simp at h

theorem containsKey_iff_mem_keys {k : Str} {d : Dict} :
    containsKey k d = true ↔ k ∈ d.map Prod.fst := by
  induction d with
  | nil => simp [containsKey]
  | cons kv rest ih =>
    obtain ⟨k', v⟩ := kv
    simp only [containsKey, Bool.or_eq_true, decide_eq_true_eq, List.map_cons,
      List.mem_cons, ih]
    constructor
    · rintro (h | h)
      · exact .inl h.symm
      · exact .inr h
    · rintro (h | h)
      · exact .inl h.symm
      · exact .inr h

theorem keys_cleanEntries_sublist (d : Dict) :
    List.Sublist ((cleanEntries d).map Prod.fst) (d.map Prod.fst) := by
  induction d with
  | nil => simp [cleanEntries]
  | cons kv rest ih =>
    obtain ⟨k', v⟩ := kv
    cases v with
    | vnone => simpa [cleanEntries] using ih.cons k'
    | vbool b => simpa [cleanEntries] using ih.cons₂ k'
    | vint n => simpa [cleanEntries] using ih.cons₂ k'
    | vfloat m e => simpa [cleanEntries] using ih.cons₂ k'
    | vstr s =>
      by_cases hs : s = []
      · simpa [cleanEntries, hs] using ih.cons k'
      · simpa [cleanEntries, hs] using ih.cons₂ k'
    | vdict es =>
      cases hc : cleanEntries es with
      | nil => simpa [cleanEntries, hc] using ih.cons k'
      | cons e es' => simpa [cleanEntries, hc] using ih.cons₂ k'
    | vlist xs =>
      cases hc : cleanList xs with
      | nil => simpa [cleanEntries, hc] using ih.cons k'
      | cons x xs' => simpa [cleanEntries, hc] using ih.cons₂ k'

theorem containsKey_cleanEntries {k : Str} {d : Dict}
    (h : containsKey k (cleanEntries d) = true) : containsKey k d = true := by
  rw [containsKey_iff_mem_keys] at h ⊢
  exact (keys_cleanEntries_sublist d).subset h

theorem dGet_cleanEntries_bool {d : Dict} {k : Str} {b : Bool}
    (h : dGet k d = some (.vbool b)) : dGet k (cleanEntries d) = some (.vbool b) := by
  induction d with
  | nil => simp [dGet] at h
  | cons kv rest ih =>
    obtain ⟨k', v⟩ := kv
    by_cases hk : k' = k
    · subst hk
      simp [dGet] at h
      subst h
      simp [cleanEntries, dGet]
    · simp only [dGet, if_neg hk] at h
      have hr := ih h
      cases v with
      | vnone => simpa [cleanEntries] using hr
      | vbool b' => simp [cleanEntries, dGet, hk, hr]
      | vint n => simp [cleanEntries, dGet, hk, hr]
      | vfloat m e => simp [cleanEntries, dGet, hk, hr]
      | vstr s =>
        by_cases hs : s = [] <;> simp [cleanEntries, hs, dGet, hk, hr]
      | vdict es =>
        cases hc : cleanEntries es <;> simp [cleanEntries, hc, dGet, hk, hr]
      | vlist xs =>
        cases hc : cleanList xs <;> simp [cleanEntries, hc, dGet, hk, hr]

/-- Claim C7 counterexample: a trojan URI without an `allowInsecure=1` query
parameter yields a node in which `skip-cert-verify` is present with value
`False`, refuting the claim that TLS-related fields are entirely absent
(in particular that such a trojan node has no `skip-cert-verify` key). -/
theorem c7_counterexample :
    vGetDict ((parse_trojan (fun _ => 0) (S "trojan://pw@h:443") none).getD .vnone)
        (S "skip-cert-verify") = some (.vbool false) := rfl

/-- Claim C7 amended: for a URI without a query string, the hysteria2 decoder
omits the TLS-related keys (`tls`, `skip-cert-verify`, `sni`, `alpn`)
entirely, but the trojan decoder always emits `skip-cert-verify`, set to
`False` (not omitted) when `allowInsecure=1` is absent, and the Sanitizer
keeps `False` values. -/
theorem c7_amended (pyHash : Str → Nat) (url : Str) (remark : Option Str)
    (hq : url.contains '?' = false) :
    (∀ es, parse_hysteria2 pyHash url remark = some (.vdict es) →
        containsKey (S "tls") es = false ∧ containsKey (S "skip-cert-verify") es = false
        ∧ containsKey (S "sni") es = false ∧ containsKey (S "alpn") es = false)
    ∧ (∀ es, parse_trojan pyHash url remark = some (.vdict es) →
        dGet (S "skip-cert-verify") es = some (.vbool false)) := by
  constructor
  · intro es h
    simp only [parse_hysteria2, wrapParser] at h
    cases hc : parse_hysteria2_core remark url with
    | error e => rw [hc] at h; simp at h
    | ok o =>
      cases o with
      | none => rw [hc] at h; simp at h
      | some cfg =>
        rw [hc] at h
        simp only [ensure_proxy_required_fields, clean_config, Option.some.injEq] at h
        have hes : es = ensureFields pyHash (cleanEntries cfg) := by
          injection h with h'
          exact h'.symm
        obtain ⟨t1, t2, t3, t4⟩ := hysteria2_core_no_query hq hc
        subst hes
        have key : ∀ k2 : Str, containsKey k2 cfg = false → k2 ∉ requiredKeys →
            containsKey k2 (ensureFields pyHash (cleanEntries cfg)) = false := by
          intro k2 hk hnk
          cases hek : containsKey k2 (ensureFields pyHash (cleanEntries cfg)) with
          | false => rfl
          | true =>
            rcases containsKey_ensureFields_elim pyHash (cleanEntries cfg) k2 hek with hc' | hc'
            · have hck := containsKey_cleanEntries hc'
              rw [hk] at hck
              cases hck
            · exact absurd hc' hnk
        exact ⟨key _ t1 (by decide), key _ t2 (by decide), key _ t3 (by decide),
          key _ t4 (by decide)⟩
  · intro es h
    simp only [parse_trojan, wrapParser] at h
    cases hc : parse_trojan_core remark url with
    | error e => rw [hc] at h; simp at h
    | ok o =>
      cases o with
      | none => rw [hc] at h; simp at h
      | some cfg =>
        rw [hc] at h
        simp only [ensure_proxy_required_fields, clean_config, Option.some.injEq] at h
        have hes : es = ensureFields pyHash (cleanEntries cfg) := by
          injection h with h'
          exact h'.symm
        subst hes
        have hclean : dGet (S "skip-cert-verify") (cleanEntries cfg) = some (.vbool false) :=
          dGet_cleanEntries_bool (trojan_core_no_query hq hc)
        rw [dGet_ensureFields pyHash _ _ (containsKey_of_dGet hclean)]
        exact hclean

/-- Witness instantiating `c7_amended` on one hysteria2 and one trojan URI,
each without a query string. -/
theorem c7_witness :
    (S "hysteria2://p@h:1").contains '?' = false
    ∧ (S "trojan://pw@h:443").contains '?' = false
    ∧ containsKey (S "skip-cert-verify")
        [(S "name", Val.vstr (S "Hysteria2-h:1")), (S "type", Val.vstr (S "hysteria2")),
         (S "server", Val.vstr (S "h")), (S "port", Val.vint 1),
         (S "password", Val.vstr (S "/p")), (S "udp", Val.vbool true)] = false
    ∧ dGet (S "skip-cert-verify")
        [(S "name", Val.vstr (S "Trojan-h:443")), (S "type", Val.vstr (S "trojan")),
         (S "server", Val.vstr (S "h")), (S "port", Val.vint 443),
         (S "password", Val.vstr (S "pw")), (S "sni", Val.vstr (S "h")),
         (S "skip-cert-verify", Val.vbool false), (S "udp", Val.vbool true)]
        = some (Val.vbool false) :=
  ⟨by decide, by decide,
   ((c7_amended (fun _ => 0) (S "hysteria2://p@h:1") none (by decide)).1 _ (by rfl)).2.1,
   (c7_amended (fun _ => 0) (S "trojan://pw@h:443") none (by decide)).2 _ (by rfl)⟩

theorem wrapParser_shape (pyHash : Str → Nat) (body : Except Unit (Option Dict)) :
    wrapParser pyHash body = none ∨ ∃ es, wrapParser pyHash body = some (.vdict es) := by
  cases body with
  | error e => exact .inl rfl
  | ok o =>
    cases o with
    | none => exact .inl rfl
    | some cfg => exact .inr ⟨ensureFields pyHash (cleanEntries cfg), rfl⟩

/-- Claim C8: for every input value (string or not) and optional label, the
decoder entry point is a total function returning either a canonical node
mapping or the failure value `None` — the `try`/`except` boundary of each
scheme decoder turns every internal parsing error into `None`, and a
successful result is always a dict. -/
theorem c8_total_shape (pyHash : Str → Nat) (u : Val) (remark : Option Str) :
    parse_proxy_url pyHash u remark = none
    ∨ ∃ es, parse_proxy_url pyHash u remark = some (.vdict es) := by
  cases u with
  | vstr s =>
    unfold parse_proxy_url
    split
    · exact .inl rfl
    · simp only [parse_hysteria2, parse_ss, parse_vmess, parse_trojan, parse_vless]
      repeat' split
      all_goals first
        | exact .inl rfl
        | exact wrapParser_shape pyHash _
  | vnone =>
    refine .inl ?_
    unfold parse_proxy_url
    split <;> rfl
  | vbool b =>
    refine .inl ?_
    unfold parse_proxy_url
    split <;> rfl
  | vint n =>
    refine .inl ?_
    unfold parse_proxy_url
    split <;> rfl
  | vfloat m e =>
    refine .inl ?_
    unfold parse_proxy_url
    split <;> rfl
  | vlist xs =>
    refine .inl ?_
    unfold parse_proxy_url
    split <;> rfl
  | vdict es =>
    refine .inl ?_
    unfold parse_proxy_url
    split <;> rfl

end GenSub
